import Mathlib

/-!
Verification development for the `pool_allocator` repository.

This file gives a shallow embedding of the allocation engine
(`SubtypeAllocatorDriver`, `SubtypeAllocatorDriverBase`) and of the
reference-counted handle (`refc`) together with the `RefcFactory`
capacity aggregation, and proves or refutes the specified properties.

Modeling conventions (64-bit target, as the source assumes):
- machine addresses and `size_t` values are `Nat`; wrap-around is written
  explicitly with `% 2 ^ 64` where the source relies on it;
- the system allocator (`::new` with `std::align_val_t`) is modeled as a
  monotone break pointer `brk`: an aligned allocation of `n` bytes returns
  the smallest suitably aligned address at or after `brk` and advances
  `brk` past the returned region. `numSys` counts these calls;
- a slab chain (`BlockBase *root` linked through `next`) is the list of
  slab base addresses, most recently created first; the intrusive free
  list (freed cells linked through their own first word) is the list of
  freed cell addresses, head of the list = head of the free list. These
  are exactly the observable contents of the corresponding linked
  structures, which the pool itself never otherwise reads or writes.
-/

namespace PoolAlloc

/-- Value of `sizeof(void *)` on the 64-bit target. -/
def ptrSize : Nat := 8

/-- Value of `sizeof(Block)`: the header holds a single `BlockBase *next` pointer
(the trailing `char data[0]` member contributes no size). -/
def headerSize : Nat := 8

/-- Number of values of `size_t`, the modulus of 64-bit address arithmetic. -/
def U64 : Nat := 2 ^ 64

/-- Value of `(size_t)-1`: the driver constant `InvalidId`, and also the `~0`
initializer of the scan in `getId`. -/
def UMAX : Nat := 2 ^ 64 - 1

/-- One entry of the driver vector `typeInfos`
(`SubtypeAllocatorDriverBase::TypeInfo`): the normalized object size and the
object alignment recorded for one class ID. -/
structure TypeInfo where
  objectSize : Nat
  objectAlignment : Nat
deriving DecidableEq

/-- One entry of the driver vector `configs`
(`SubtypeAllocatorDriverBase::Config`): the pool state for one class ID.
`root` is the slab chain (base addresses, newest first), `freeList` the
intrusive free list (freed cell addresses, LIFO), `pos` and `last` the byte
offsets into the newest slab's cell area that bound bump allocation. -/
structure Config where
  root : List Nat
  freeList : List Nat
  pos : Nat
  last : Nat
deriving DecidableEq

/-- State of a `SubtypeAllocatorDriver`, plus the model of the system
allocator (`brk`) and the count of system-allocator calls (`numSys`). -/
structure Driver where
  typeInfos : List TypeInfo
  configs : List Config
  brk : Nat
  numSys : Nat
deriving DecidableEq

/-- The empty driver produced by the default constructor. -/
def Driver.empty : Driver := ⟨[], [], 0, 0⟩

/-- Smallest multiple of `a` that is `≥ b` (the address the aligned system
allocator hands out when its break pointer stands at `b`). -/
def alignUp (b a : Nat) : Nat := if a = 0 then b else (b + a - 1) / a * a

/-- Translation of `SubtypeAllocatorDriver::normalizedSize<T>()`:
`std::max(sizeof(void *), (sizeof(T) + 7)) & ~7`. Clearing the low three bits
of `x` is written `8 * (x / 8)` (the values involved never reach `2 ^ 64`). -/
def normalizedSize (sizeofT : Nat) : Nat :=
  8 * (max ptrSize (sizeofT + 7) / 8)

/-- Translation of `SubtypeAllocatorDriver::Block::create(nxt, ObjectSize,
ObjectAlignment, BlockSize)`. Returns the slab base address, the byte offset of
the first cell into the `data` member, and the advanced break pointer. The
slab base is aligned to `ObjectAlignment` by the system allocator. -/
def blockCreate (brk objectSize objectAlignment blockSize : Nat) :
    Nat × Nat × Nat :=
  let chunkSize := max objectSize objectAlignment
  let offset := max headerSize objectAlignment
  let numBytes := offset + blockSize * chunkSize
  let base := alignUp brk objectAlignment
  (base, offset - headerSize, base + numBytes)

/-- Translation of the scan loop inside `SubtypeAllocatorDriver::getId<T>()`.
`i` is the index of the first element of the remaining list; the accumulator
`acc = (alignment, id)` starts at `(~0, ~0)`. An entry is taken when its
`objectSize` equals the normalized size, its alignment is at least the
requested one, and it strictly improves the best alignment seen so far. -/
def getIdScan (ns al : Nat) : List TypeInfo → Nat → Nat × Nat → Nat × Nat
  | [], _, acc => acc
  | t :: rest, i, acc =>
    if t.objectSize = ns ∧ al ≤ t.objectAlignment ∧ t.objectAlignment < acc.1
    then getIdScan ns al rest (i + 1) (t.objectAlignment, i)
    else getIdScan ns al rest (i + 1) acc

/-- Translation of `SubtypeAllocatorDriver::getId<T>()`, parameterized by
`sizeof(T)` and `alignof(T)`. Scans `typeInfos` for the best existing entry
(`if (~id)` means the scan found one, i.e. `id` differs from `(size_t)-1`);
otherwise appends a new `TypeInfo` and a freshly zeroed `Config`. -/
def getId (s : Driver) (sizeofT alignofT : Nat) : Nat × Driver :=
  let ns := normalizedSize sizeofT
  let scanned := getIdScan ns alignofT s.typeInfos 0 (UMAX, UMAX)
  if scanned.2 ≠ UMAX then (scanned.2, s)
  else (s.typeInfos.length,
    { s with
      typeInfos := s.typeInfos ++ [⟨ns, alignofT⟩],
      configs := s.configs ++ [⟨[], [], 0, 0⟩] })

/-- Translation of `SubtypeAllocatorDriver::allocate(Id)` with template
argument `AllocationBlockSize = abs`. Pops the free list when non-empty,
otherwise bump-allocates from the newest slab, creating a new slab first when
the bump range is exhausted. Returns `none` exactly when the C++ code would
index `configs`/`typeInfos` out of bounds or dereference a null slab pointer
(both undefined behavior, unreachable under the driver invariant). -/
def allocate (abs : Nat) (s : Driver) (Id : Nat) : Option (Nat × Driver) :=
  match s.configs[Id]? with
  | none => none
  | some config =>
    match config.freeList with
    | ret :: rest =>
      some (ret,
        { s with configs := s.configs.set Id { config with freeList := rest } })
    | [] =>
      match s.typeInfos[Id]? with
      | none => none
      | some ti =>
        if config.pos + ti.objectSize > config.last then
          let cr := blockCreate s.brk ti.objectSize ti.objectAlignment abs
          some (cr.1 + headerSize + cr.2.1,
            { s with
              brk := cr.2.2,
              numSys := s.numSys + 1,
              configs := s.configs.set Id
                ⟨cr.1 :: config.root, [],
                 cr.2.1 + ti.objectSize, abs * ti.objectSize + cr.2.1⟩ })
        else
          match config.root with
          | [] => none
          | base :: _ =>
            let config' := { config with pos := config.pos + ti.objectSize }
            some (base + headerSize + config.pos,
              { s with configs := s.configs.set Id config' })

/-- Translation of `SubtypeAllocatorDriverBase::deallocate(Obj, Id)`: push the
cell address onto the free list of `Id` (the first word of the cell receives
the previous head; in the list model this is the new head of `freeList`). -/
def deallocate (s : Driver) (obj Id : Nat) : Option Driver :=
  match s.configs[Id]? with
  | none => none
  | some config =>
    let config' := { config with freeList := obj :: config.freeList }
    some { s with configs := s.configs.set Id config' }

/-- Addresses the reserve loop pushes onto the free list: the loop walks
`it = &rt->data[last - osize]` down to `&rt->data[pos]` in steps of `osize`,
pushing each cell, so the resulting stack holds the lowest address on top.
`base` is the newest slab base; the element for `k` is the cell at byte offset
`last - (rem - k) * osize`. -/
def reservePushed (base last osize rem : Nat) : List Nat :=
  (List.range rem).map fun k => base + headerSize + (last - (rem - k) * osize)

/-- Translation of `SubtypeAllocatorDriver::reserve(Id, NumNewObjects)`.
Returns `none` exactly when the C++ code would index out of bounds or
dereference a null slab pointer (undefined behavior, unreachable under the
driver invariant). -/
def reserve (s : Driver) (Id NumNewObjects : Nat) : Option Driver :=
  if NumNewObjects = 0 then some s
  else
    match s.configs[Id]?, s.typeInfos[Id]? with
    | some config, some ti =>
      let osize := ti.objectSize
      let oalign := ti.objectAlignment
      let pos := config.pos
      let last := config.last
      let rem := (last - pos) / osize
      if rem > NumNewObjects then some s
      else
        let step : Option (Nat × List Nat) :=
          if rem = 0 then some (NumNewObjects, config.freeList)
          else
            match config.root with
            | [] => none
            | base :: _ =>
              some (NumNewObjects - rem,
                reservePushed base last osize rem ++ config.freeList)
        match step with
        | none => none
        | some (n, fl) =>
          let cr := blockCreate s.brk osize oalign n
          some { s with
            brk := cr.2.2,
            numSys := s.numSys + 1,
            configs := s.configs.set Id
              ⟨cr.1 :: config.root, fl, cr.2.1, cr.2.1 + n * osize⟩ }
    | _, _ => none

/-- Translation of `~SubtypeAllocatorDriver()`: every slab of every pool is
released to the system allocator, then both vectors are cleared. Only the
driver state is observable here; the model keeps `brk` and `numSys`. -/
def destroyDriver (s : Driver) : Driver :=
  { s with typeInfos := [], configs := [] }

/-- Iterated `allocate`: performs `k` consecutive allocations for the same
class ID and collects the returned addresses in order. -/
def allocateK (abs : Nat) (s : Driver) (Id : Nat) : Nat → Option (List Nat × Driver)
  | 0 => some ([], s)
  | k + 1 =>
    (allocate abs s Id).bind fun ps =>
      (allocateK abs ps.2 Id k).bind fun qs => some (ps.1 :: qs.1, qs.2)

/-- Iterated `deallocate`: returns the cells of `l` to the free list of `Id`,
in the order given by `l`. -/
def deallocList (s : Driver) (l : List Nat) (Id : Nat) : Option Driver :=
  match l with
  | [] => some s
  | x :: xs => (deallocate s x Id).bind fun s1 => deallocList s1 xs Id

/-- Value of `sizeof(refc_base::counter)`: a `std::atomic_size_t`, a `size_t`
and a pointer, 8 bytes each with no padding. -/
def counterSize : Nat := 24

namespace refc

/-- Data value (the `counter *Data` member, as a `size_t`) of a handle in the
null state. -/
def nullData : Nat := 0

/-- Data value of `refc::getEmptyKey()`: the cell pointer `(one_allocation *)-1`. -/
def emptyKeyData : Nat := U64 - 1

/-- Data value of `refc::getTombstoneKey()`: the cell pointer `(one_allocation *)-2`. -/
def tombstoneKeyData : Nat := U64 - 2

/-- Translation of `refc::operator bool()`: `return size_t(Data + 2) < 3;`.
`Data` has type `counter *`, so the pointer arithmetic `Data + 2` advances the
address by `2 * sizeof(counter)` bytes before the cast to `size_t`. -/
def operatorBool (data : Nat) : Bool := (data + 2 * counterSize) % U64 < 3

/-- Translation of `refc::operator==(std::nullptr_t)`: `return Data;`, that is,
the stored pointer converted to `bool` (true iff `Data` is non-null). -/
def eqNullptr (data : Nat) : Bool := data != 0

/-- Observable state of one `refc` cell: the reference counter of the
`counter` header and whether a driver is attached (`Del` non-null), plus
instrumentation for the lifecycle properties: how many times the payload
destructor has run and how many times the cell was passed to
`Del->deallocate`. -/
structure CellState where
  ctr : Nat
  hasDel : Bool
  dtorRuns : Nat
  deallocCalls : Nat
deriving DecidableEq

/-- Cell header as initialized by the factory-used constructor
`refc(Del, Id, args...)`: `counter(1, Id, Del)` with a driver attached. -/
def factoryCell : CellState := ⟨1, true, 0, 0⟩

/-- Cell header as initialized by `refc<T>::singleton`:
`one_allocation(1, InvalidId, nullptr)`, no driver attached. -/
def singletonCell : CellState := ⟨1, false, 0, 0⟩

/-- Translation of the destructor `refc::~refc()`, acting on the cell a handle
with data value `data` points to. The body is guarded by `if (!*this) return;`.
Past the guard, `Ctr.fetch_sub(1)` decrements the 64-bit counter and yields its
previous value; if that value was `1` and `Del` is attached, the payload
destructor runs in place and the cell is handed to `Del->deallocate`. -/
def drop (data : Nat) (c : CellState) : CellState :=
  if !operatorBool data then c
  else
    let old := c.ctr
    let c' := { c with ctr := (c.ctr + (U64 - 1)) % U64 }
    if old = 1 ∧ c'.hasDel then
      { c' with
        dtorRuns := c'.dtorRuns + 1,
        deallocCalls := c'.deallocCalls + 1 }
    else c'

/-- Translation of the copy constructor `refc(const refc &)`: when the source
`Data` is non-null, `Ctr.fetch_add(1)` increments the 64-bit counter. -/
def copy (data : Nat) (c : CellState) : CellState :=
  if data ≠ 0 then { c with ctr := (c.ctr + 1) % U64 } else c

/-- Translation of the move constructor `refc(refc &&)`: the pointer is stolen
and the source handle becomes null; the cell itself is never touched. -/
def move (c : CellState) : CellState := c

end refc

/-- Translation of the aggregation loop in the capacity constructor
`RefcFactory(initialCapacities)`: `initCapById` starts as one zeroed slot per
type of the factory, and slot `Ids[i]` accumulates `initialCapacities[i]`, so
types resolved to the same driver ID sum their capacities. -/
def aggregateCapsById (ids caps : List Nat) : List Nat :=
  (List.zip ids caps).foldl
    (fun arr p => arr.set p.1 ((arr[p.1]?.getD 0) + p.2))
    (List.replicate ids.length 0)

/-- The argument lists of the `reserve` calls issued by the final loop of the
capacity constructor, as the source writes them: for each `i < numIds` with
`initCapById[i] != 0` the loop performs `Driver.reserve(initCapById[i])`,
passing the aggregated capacity as the only argument (it stands in the `Id`
parameter position; no `NumNewObjects` argument is supplied). -/
def factoryReserveArgs (initCapById : List Nat) (numIds : Nat) : List Nat :=
  ((List.range numIds).filter fun i => (initCapById[i]?.getD 0) ≠ 0).map
    fun i => initCapById[i]?.getD 0

/-! Helper lemmas about the driver operations. -/

/-- Driver with the pool configuration of `Id` replaced. -/
def Driver.setCfg (s : Driver) (Id : Nat) (c : Config) : Driver :=
  { s with configs := s.configs.set Id c }

theorem setCfg_typeInfos (s : Driver) (Id : Nat) (c : Config) :
    (s.setCfg Id c).typeInfos = s.typeInfos := rfl

theorem setCfg_brk (s : Driver) (Id : Nat) (c : Config) :
    (s.setCfg Id c).brk = s.brk := rfl

theorem setCfg_numSys (s : Driver) (Id : Nat) (c : Config) :
    (s.setCfg Id c).numSys = s.numSys := rfl

theorem setCfg_configs (s : Driver) (Id : Nat) (c : Config) :
    (s.setCfg Id c).configs = s.configs.set Id c := rfl

theorem setCfg_setCfg (s : Driver) (Id : Nat) (a b : Config) :
    (s.setCfg Id a).setCfg Id b = s.setCfg Id b := by
  simp [Driver.setCfg, List.set_set]

theorem setCfg_configs_length (s : Driver) (Id : Nat) (c : Config) :
    (s.setCfg Id c).configs.length = s.configs.length := by
  simp [Driver.setCfg]

theorem getElem?_setCfg_self {s : Driver} {Id : Nat} (c : Config)
    (h : Id < s.configs.length) :
    (s.setCfg Id c).configs[Id]? = some c :=
  List.getElem?_set_eq_of_lt _ h

/-- Setting an index of a list to the value it already holds is the identity. -/
theorem set_self_of_getElem? {α : Type} {l : List α} {n : Nat} {a : α}
    (h : l[n]? = some a) : l.set n a = l := by
  apply List.ext_getElem?
  intro m
  by_cases hm : m = n
  · subst hm
    rcases List.getElem?_eq_some.mp h with ⟨hlt, _⟩
    rw [List.getElem?_set_eq_of_lt _ hlt, h]
  · rw [List.getElem?_set_ne fun he => hm he.symm]

theorem setCfg_self {s : Driver} {Id : Nat} {c : Config}
    (h : s.configs[Id]? = some c) : s.setCfg Id c = s := by
  simp [Driver.setCfg, set_self_of_getElem? h]

/-- When the free list of `Id` is non-empty, `allocate` pops its head and
changes nothing else. -/
theorem allocate_freeList_cons {abs : Nat} {s : Driver} {Id : Nat} {c : Config}
    (hc : s.configs[Id]? = some c) {x : Nat} {rest : List Nat}
    (hfl : c.freeList = x :: rest) :
    allocate abs s Id = some (x, s.setCfg Id { c with freeList := rest }) := by
  simp [allocate, hc, hfl, Driver.setCfg]

/-- Unfolding of `deallocate` at a valid index. -/
theorem deallocate_eq {s : Driver} {Id : Nat} {c : Config}
    (hc : s.configs[Id]? = some c) (x : Nat) :
    deallocate s x Id =
      some (s.setCfg Id { c with freeList := x :: c.freeList }) := by
  simp [deallocate, hc, Driver.setCfg]

/-- `deallocList` pushes the whole list onto the free list of `Id`, in reverse
order, and changes nothing else. -/
theorem deallocList_eq {Id : Nat} :
    ∀ (l : List Nat) (s : Driver) (c : Config),
      s.configs[Id]? = some c →
      deallocList s l Id =
        some (s.setCfg Id { c with freeList := l.reverse ++ c.freeList }) := by
  intro l
  induction l with
  | nil =>
    intro s c hc
    have h1 : ({ c with freeList := [].reverse ++ c.freeList } : Config) = c := by
      simp
    rw [h1, setCfg_self hc]
    rfl
  | cons x xs ih =>
    intro s c hc
    rcases List.getElem?_eq_some.mp hc with ⟨hlt, _⟩
    have step : deallocList s (x :: xs) Id =
        (deallocate s x Id).bind fun s1 => deallocList s1 xs Id := rfl
    rw [step, deallocate_eq hc, Option.some_bind]
    have hc1 := @getElem?_setCfg_self s Id
      { c with freeList := x :: c.freeList } hlt
    rw [ih _ _ hc1, setCfg_setCfg]
    simp [List.reverse_cons, List.append_assoc]

/-- `allocateK` serves the first `xs.length` allocations straight from a free
list that starts with `xs`, touching nothing else. -/
theorem allocateK_pops_freeList {abs Id : Nat} :
    ∀ (xs : List Nat) (s : Driver) (c : Config),
      s.configs[Id]? = some c →
      ∀ rest : List Nat, c.freeList = xs ++ rest →
      allocateK abs s Id xs.length =
        some (xs, s.setCfg Id { c with freeList := rest }) := by
  intro xs
  induction xs with
  | nil =>
    intro s c hc rest hfl
    simp only [List.nil_append] at hfl
    have h1 : ({ c with freeList := rest } : Config) = c := by rw [← hfl]
    rw [h1, setCfg_self hc]
    rfl
  | cons x xs ih =>
    intro s c hc rest hfl
    rcases List.getElem?_eq_some.mp hc with ⟨hlt, _⟩
    have hpop := @allocate_freeList_cons abs s Id c hc x (xs ++ rest)
      (by simpa using hfl)
    have step : allocateK abs s Id (x :: xs).length =
        (allocate abs s Id).bind fun ps =>
          (allocateK abs ps.2 Id xs.length).bind fun qs =>
            some (ps.1 :: qs.1, qs.2) := rfl
    rw [step, hpop, Option.some_bind]
    have hc1 := @getElem?_setCfg_self s Id
      { c with freeList := xs ++ rest } hlt
    rw [ih _ _ hc1 rest rfl, Option.some_bind, setCfg_setCfg]

/-- `allocate` never touches `typeInfos` and preserves the length of
`configs`. -/
theorem allocate_preserves {abs : Nat} {s : Driver} {Id p : Nat} {s' : Driver}
    (h : allocate abs s Id = some (p, s')) :
    s'.typeInfos = s.typeInfos ∧ s'.configs.length = s.configs.length := by
  unfold allocate at h
  split at h
  · exact absurd h (by simp)
  · split at h
    · cases h
      simp
    · split at h
      · exact absurd h (by simp)
      · split at h
        · cases h
          simp
        · split at h
          · exact absurd h (by simp)
          · cases h
            simp

/-- `allocateK` never touches `typeInfos`, preserves the length of `configs`,
and returns exactly `k` addresses. -/
theorem allocateK_preserves {abs Id : Nat} :
    ∀ (k : Nat) (s : Driver) (ps : List Nat) (s' : Driver),
      allocateK abs s Id k = some (ps, s') →
      s'.typeInfos = s.typeInfos ∧ s'.configs.length = s.configs.length ∧
        ps.length = k := by
  intro k
  induction k with
  | zero =>
    intro s ps s' h
    simp [allocateK] at h
    simp [h.1, h.2]
  | succ k ih =>
    intro s ps s' h
    have step : allocateK abs s Id (k + 1) =
        (allocate abs s Id).bind fun ps1 =>
          (allocateK abs ps1.2 Id k).bind fun qs =>
            some (ps1.1 :: qs.1, qs.2) := rfl
    rw [step] at h
    rcases ha : allocate abs s Id with _ | ⟨q, s1⟩ <;> rw [ha] at h
    · exact absurd h (by simp)
    rw [Option.some_bind] at h
    rcases hk2 : allocateK abs s1 Id k with _ | ⟨ps2, s2⟩ <;> rw [hk2] at h
    · exact absurd h (by simp)
    rw [Option.some_bind, Option.some.injEq, Prod.mk.injEq] at h
    obtain ⟨h1, h2⟩ := h
    obtain ⟨ha1, ha2⟩ := allocate_preserves ha
    obtain ⟨hb1, hb2, hb3⟩ := ih _ _ _ hk2
    subst h1 h2
    refine ⟨hb1.trans ha1, hb2.trans ha2, by simp [hb3]⟩

/-- Claim C4: for every class ID of the driver and every `k ≥ 1`, allocating
`k` cells and then deallocating all `k` of them in any order leaves the pool
in a state where the next `k` allocations return exactly those `k` addresses,
in LIFO order of the deallocations, and make no call to the system
allocator. -/
theorem c4_alloc_dealloc_round_trip (abs k Id : Nat) (s : Driver)
    (addrs l : List Nat) (s1 : Driver)
    (hk : 1 ≤ k) (hid : Id < s.configs.length)
    (halloc : allocateK abs s Id k = some (addrs, s1))
    (hperm : l.Perm addrs) :
    ∃ s2 s3, deallocList s1 l Id = some s2 ∧
      allocateK abs s2 Id k = some (l.reverse, s3) ∧
      s3.numSys = s2.numSys ∧ l.reverse.Perm addrs := by
  obtain ⟨hti, hlen, haddrlen⟩ := allocateK_preserves k s addrs s1 halloc
  have hid1 : Id < s1.configs.length := hlen ▸ hid
  obtain ⟨c, hc⟩ : ∃ c, s1.configs[Id]? = some c :=
    ⟨s1.configs[Id], List.getElem?_eq_some.mpr ⟨hid1, rfl⟩⟩
  have hs2 := deallocList_eq l s1 c hc
  have hlr : l.reverse.length = k := by
    rw [List.length_reverse, hperm.length_eq, haddrlen]
  have hid2 : Id < (s1.setCfg Id
      { c with freeList := l.reverse ++ c.freeList }).configs.length := by
    rw [setCfg_configs_length]
    exact hid1
  have hc2 := @getElem?_setCfg_self s1 Id
    { c with freeList := l.reverse ++ c.freeList } hid1
  have halloc2 := @allocateK_pops_freeList abs Id l.reverse
    (s1.setCfg Id { c with freeList := l.reverse ++ c.freeList })
    { c with freeList := l.reverse ++ c.freeList } hc2 c.freeList rfl
  rw [hlr, setCfg_setCfg] at halloc2
  exact ⟨_, _, hs2, halloc2, rfl, (l.reverse_perm).trans hperm⟩

/-! Driver invariant and capacity reasoning. -/

/-- Invariant of a driver state: the two vectors have equal length, every
recorded object size is positive (normalized sizes are at least 8), and a
pool whose bump range is non-empty has a current slab. All reachable driver
states satisfy it. -/
def Inv (s : Driver) : Prop :=
  s.typeInfos.length = s.configs.length ∧
  ∀ (i : Nat) (t : TypeInfo) (c : Config),
    s.typeInfos[i]? = some t → s.configs[i]? = some c →
    0 < t.objectSize ∧ (c.pos < c.last → c.root ≠ [])

/-- Number of allocations a pool can serve without creating a slab: the free
list plus the remaining bump range. -/
def capacity (t : TypeInfo) (c : Config) : Nat :=
  c.freeList.length + (c.last - c.pos) / t.objectSize

theorem normalizedSize_pos (x : Nat) : 0 < normalizedSize x := by
  have h8 : 8 ≤ max ptrSize (x + 7) := le_max_left _ _
  have : 1 ≤ max ptrSize (x + 7) / 8 := (Nat.le_div_iff_mul_le (by norm_num)).mpr (by omega)
  simp only [normalizedSize]
  omega

theorem sub_div_self_aux (b d : Nat) (hb : 0 < b) : (d - b) / b = d / b - 1 := by
  rcases le_or_lt b d with h | h
  · obtain ⟨e, rfl⟩ := Nat.exists_eq_add_of_le h
    rw [Nat.add_sub_cancel_left, Nat.add_div_left _ hb]
    exact (Nat.succ_sub_one _).symm
  · rw [Nat.sub_eq_zero_of_le (le_of_lt h), Nat.div_eq_of_lt h, Nat.zero_div]

/-- Unfolding of `allocate` in the bump branch. -/
theorem allocate_bump {abs : Nat} {s : Driver} {Id : Nat} {t : TypeInfo}
    {c : Config} (hc : s.configs[Id]? = some c)
    (ht : s.typeInfos[Id]? = some t) (hfl : c.freeList = [])
    (hle : c.pos + t.objectSize ≤ c.last) {b : Nat} {bs : List Nat}
    (hr : c.root = b :: bs) :
    allocate abs s Id = some (b + headerSize + c.pos,
      s.setCfg Id { c with pos := c.pos + t.objectSize }) := by
  have hnot : ¬ c.last < c.pos + t.objectSize := by omega
  simp [allocate, hc, ht, hfl, hr, hnot, Driver.setCfg]

/-- Unfolding of `allocate` in the slab-creating branch. -/
theorem allocate_newBlock {abs : Nat} {s : Driver} {Id : Nat} {t : TypeInfo}
    {c : Config} (hc : s.configs[Id]? = some c)
    (ht : s.typeInfos[Id]? = some t) (hfl : c.freeList = [])
    (hgt : c.last < c.pos + t.objectSize) :
    allocate abs s Id =
      some ((blockCreate s.brk t.objectSize t.objectAlignment abs).1
          + headerSize
          + (blockCreate s.brk t.objectSize t.objectAlignment abs).2.1,
        ({ s with brk := (blockCreate s.brk t.objectSize t.objectAlignment abs).2.2,
                  numSys := s.numSys + 1 }).setCfg Id
          ⟨(blockCreate s.brk t.objectSize t.objectAlignment abs).1 :: c.root, [],
           (blockCreate s.brk t.objectSize t.objectAlignment abs).2.1 + t.objectSize,
           abs * t.objectSize
             + (blockCreate s.brk t.objectSize t.objectAlignment abs).2.1⟩) := by
  simp [allocate, hc, ht, hfl, hgt, Driver.setCfg]

/-- One allocation served from a pool with positive capacity: no slab is
created, the capacity drops by exactly one, and the slab-presence condition is
maintained. -/
theorem allocate_no_sys_of_capacity {abs Id : Nat} {s : Driver} {t : TypeInfo}
    {c : Config} (ht : s.typeInfos[Id]? = some t) (hc : s.configs[Id]? = some c)
    (hos : 0 < t.objectSize) (hroot : c.pos < c.last → c.root ≠ [])
    (hcap : 1 ≤ capacity t c) :
    ∃ p c1, allocate abs s Id = some (p, s.setCfg Id c1) ∧
      capacity t c1 = capacity t c - 1 ∧
      (c1.pos < c1.last → c1.root ≠ []) := by
  rcases hfl : c.freeList with _ | ⟨x, rest⟩
  · have hdiv : 1 ≤ (c.last - c.pos) / t.objectSize := by
      have := hcap
      simp [capacity, hfl] at this ⊢
      omega
    have hle : c.pos + t.objectSize ≤ c.last := by
      have := (Nat.le_div_iff_mul_le hos).mp hdiv
      omega
    have hpl : c.pos < c.last := by omega
    rcases hr : c.root with _ | ⟨b, bs⟩
    · exact absurd hr (hroot hpl)
    refine ⟨_, _, allocate_bump hc ht hfl hle hr, ?_, ?_⟩
    · simp only [capacity, hfl, List.length_nil, Nat.zero_add]
      have : c.last - (c.pos + t.objectSize) = (c.last - c.pos) - t.objectSize := by
        omega
      rw [this, sub_div_self_aux _ _ hos]
    · intro _
      simp [hr]
  · refine ⟨x, { c with freeList := rest },
      allocate_freeList_cons hc hfl, ?_, hroot⟩
    simp [capacity, hfl]

/-- A pool with capacity at least `n` serves the next `n` allocations without
any call to the system allocator. -/
theorem allocateK_no_sys {abs Id : Nat} :
    ∀ (n : Nat) (s : Driver) (t : TypeInfo) (c : Config),
      s.typeInfos[Id]? = some t → s.configs[Id]? = some c →
      0 < t.objectSize → (c.pos < c.last → c.root ≠ []) →
      n ≤ capacity t c →
      ∃ addrs s', allocateK abs s Id n = some (addrs, s') ∧
        s'.numSys = s.numSys := by
  intro n
  induction n with
  | zero => exact fun s t c _ _ _ _ _ => ⟨[], s, rfl, rfl⟩
  | succ n ih =>
    intro s t c ht hc hos hroot hcap
    obtain ⟨p, c1, ha, hcap1, hroot1⟩ :=
      @allocate_no_sys_of_capacity abs Id s t c ht hc hos hroot (by omega)
    have hlt : Id < s.configs.length := (List.getElem?_eq_some.mp hc).1
    have ht1 : (s.setCfg Id c1).typeInfos[Id]? = some t := ht
    have hc1 : (s.setCfg Id c1).configs[Id]? = some c1 :=
      getElem?_setCfg_self c1 hlt
    obtain ⟨addrs, s', hK, hnum⟩ := ih (s.setCfg Id c1) t c1 ht1 hc1 hos hroot1
      (by omega)
    have step : allocateK abs s Id (n + 1) =
        (allocate abs s Id).bind fun ps =>
          (allocateK abs ps.2 Id n).bind fun qs =>
            some (ps.1 :: qs.1, qs.2) := rfl
    refine ⟨p :: addrs, s', ?_, ?_⟩
    · rw [step, ha, Option.some_bind]
      simp only [hK, Option.some_bind]
    · rw [hnum, setCfg_numSys]

/-! Branch unfoldings of `reserve`. -/

/-- `reserve` is the identity when the remaining bump range already covers
more than the requested count. -/
theorem reserve_noop {s : Driver} {Id n : Nat} {t : TypeInfo} {c : Config}
    (ht : s.typeInfos[Id]? = some t) (hc : s.configs[Id]? = some c)
    (hn : n ≠ 0) (hgt : n < (c.last - c.pos) / t.objectSize) :
    reserve s Id n = some s := by
  simp [reserve, hn, hc, ht, hgt]

/-- `reserve` on a pool with an exhausted bump range creates one slab of
exactly `n` cells and rebinds the bump range to it. -/
theorem reserve_fresh {s : Driver} {Id n : Nat} {t : TypeInfo} {c : Config}
    (ht : s.typeInfos[Id]? = some t) (hc : s.configs[Id]? = some c)
    (hn : n ≠ 0) (hrem0 : (c.last - c.pos) / t.objectSize = 0) :
    reserve s Id n =
      some (({ s with
          brk := (blockCreate s.brk t.objectSize t.objectAlignment n).2.2,
          numSys := s.numSys + 1 }).setCfg Id
        ⟨(blockCreate s.brk t.objectSize t.objectAlignment n).1 :: c.root,
         c.freeList,
         (blockCreate s.brk t.objectSize t.objectAlignment n).2.1,
         (blockCreate s.brk t.objectSize t.objectAlignment n).2.1
           + n * t.objectSize⟩) := by
  simp [reserve, hn, hc, ht, hrem0, Driver.setCfg]

/-- `reserve` on a pool whose bump range still holds `rem ≤ n` cells pushes
those cells onto the free list (lowest address on top) and creates one slab of
the remaining `n - rem` cells. -/
theorem reserve_tail {s : Driver} {Id n : Nat} {t : TypeInfo} {c : Config}
    {b : Nat} {bs : List Nat}
    (ht : s.typeInfos[Id]? = some t) (hc : s.configs[Id]? = some c)
    (hn : n ≠ 0) (hrem : (c.last - c.pos) / t.objectSize ≠ 0)
    (hle : (c.last - c.pos) / t.objectSize ≤ n) (hr : c.root = b :: bs) :
    reserve s Id n =
      some (({ s with
          brk := (blockCreate s.brk t.objectSize t.objectAlignment
            (n - (c.last - c.pos) / t.objectSize)).2.2,
          numSys := s.numSys + 1 }).setCfg Id
        ⟨(blockCreate s.brk t.objectSize t.objectAlignment
            (n - (c.last - c.pos) / t.objectSize)).1 :: c.root,
         reservePushed b c.last t.objectSize
            ((c.last - c.pos) / t.objectSize) ++ c.freeList,
         (blockCreate s.brk t.objectSize t.objectAlignment
            (n - (c.last - c.pos) / t.objectSize)).2.1,
         (blockCreate s.brk t.objectSize t.objectAlignment
            (n - (c.last - c.pos) / t.objectSize)).2.1
           + (n - (c.last - c.pos) / t.objectSize) * t.objectSize⟩) := by
  have hnot : ¬ (n < (c.last - c.pos) / t.objectSize) := Nat.not_lt.mpr hle
  simp [reserve, hn, hc, ht, hrem, hnot, hr, Driver.setCfg]

/-- After a successful `reserve` of `n ≠ 0` cells, the pool of `Id` has
capacity at least `n`, a current slab whenever needed, and nothing else about
the driver shape changed. -/
theorem reserve_spec {s : Driver} {Id n : Nat} {t : TypeInfo} {c : Config}
    (ht : s.typeInfos[Id]? = some t) (hc : s.configs[Id]? = some c)
    (hos : 0 < t.objectSize) (hroot : c.pos < c.last → c.root ≠ [])
    (hn : n ≠ 0) :
    ∃ s', reserve s Id n = some s' ∧
      s'.typeInfos = s.typeInfos ∧
      s'.configs.length = s.configs.length ∧
      (∀ j, j ≠ Id → s'.configs[j]? = s.configs[j]?) ∧
      ∃ c', s'.configs[Id]? = some c' ∧
        (c'.pos < c'.last → c'.root ≠ []) ∧ n ≤ capacity t c' := by
  have hlt : Id < s.configs.length := (List.getElem?_eq_some.mp hc).1
  by_cases hgt : n < (c.last - c.pos) / t.objectSize
  · refine ⟨s, reserve_noop ht hc hn hgt, rfl, rfl, fun j _ => rfl,
      c, hc, hroot, ?_⟩
    simp only [capacity]
    omega
  · by_cases hrem0 : (c.last - c.pos) / t.objectSize = 0
    · refine ⟨_, reserve_fresh ht hc hn hrem0, rfl, by
        simp [setCfg_configs_length], fun j hj => ?_, _,
        getElem?_setCfg_self _ hlt, fun _ => by simp, ?_⟩
      · exact List.getElem?_set_ne fun he => hj he.symm
      · simp only [capacity, Nat.add_sub_cancel_left,
          Nat.mul_div_cancel _ hos]
        omega
    · have hple : c.pos < c.last := by
        rcases Nat.eq_zero_or_pos ((c.last - c.pos) / t.objectSize) with h | h
        · exact absurd h hrem0
        · have := (Nat.le_div_iff_mul_le hos).mp h
          omega
      rcases hr : c.root with _ | ⟨b, bs⟩
      · exact absurd hr (hroot hple)
      have hle : (c.last - c.pos) / t.objectSize ≤ n := Nat.not_lt.mp hgt
      refine ⟨_, reserve_tail ht hc hn hrem0 hle hr, rfl, by
        simp [setCfg_configs_length], fun j hj => ?_, _,
        getElem?_setCfg_self _ hlt, fun _ => by simp, ?_⟩
      · exact List.getElem?_set_ne fun he => hj he.symm
      · simp only [capacity, List.length_append, Nat.add_sub_cancel_left,
          Nat.mul_div_cancel _ hos, reservePushed, List.length_map,
          List.length_range]
        omega

/-! Invariant preservation and claims C6 and C10. -/

/-- `Inv` only looks at `typeInfos` and `configs`, so replacing one pool
configuration preserves it as long as the new configuration keeps the
slab-presence condition. -/
theorem Inv_setCfg {s : Driver} {Id : Nat} {c' : Config} (hinv : Inv s)
    (hlt : Id < s.configs.length)
    (hcond : c'.pos < c'.last → c'.root ≠ []) : Inv (s.setCfg Id c') := by
  refine ⟨by simpa [setCfg_configs_length] using hinv.1, ?_⟩
  intro i t c htc hcc
  by_cases hi : i = Id
  · subst hi
    rw [getElem?_setCfg_self c' hlt] at hcc
    cases hcc
    obtain ⟨c0, hc0⟩ : ∃ c0, s.configs[i]? = some c0 :=
      ⟨s.configs[i], List.getElem?_eq_some.mpr ⟨hlt, rfl⟩⟩
    exact ⟨(hinv.2 i t c0 htc hc0).1, hcond⟩
  · rw [setCfg_configs, List.getElem?_set_ne fun he => hi he.symm] at hcc
    exact hinv.2 i t c htc hcc

/-- Claim C6: after `reserve(Id, n)` with `n ≥ 1`, the next `n` calls to
`allocate(Id)` all succeed and make no call to the system allocator, so no
new slab is created by them. -/
theorem c6_reserve_covers_next_n (abs Id n : Nat) (s s' : Driver)
    (hinv : Inv s) (hn : 1 ≤ n) (hres : reserve s Id n = some s') :
    ∃ addrs s'', allocateK abs s' Id n = some (addrs, s'') ∧
      s''.numSys = s'.numSys := by
  have hn0 : n ≠ 0 := by omega
  rcases hc : s.configs[Id]? with _ | c
  · rcases ht : s.typeInfos[Id]? with _ | t <;>
      simp [reserve, hn0, hc, ht] at hres
  rcases ht : s.typeInfos[Id]? with _ | t
  · simp [reserve, hn0, hc, ht] at hres
  obtain ⟨hos, hroot⟩ := hinv.2 Id t c ht hc
  obtain ⟨s'0, hres0, hti, _, _, c', hc', hroot', hcap⟩ :=
    reserve_spec ht hc hos hroot hn0
  rw [hres0, Option.some.injEq] at hres
  subst hres
  have ht2 : s'0.typeInfos[Id]? = some t := by rw [hti]; exact ht
  exact allocateK_no_sys n s'0 t c' ht2 hc' hos hroot' hcap

/-- `getIdScan` returns either its accumulator or a position inside the
scanned range. -/
theorem getIdScan_snd_range (ns al : Nat) :
    ∀ (ti : List TypeInfo) (i : Nat) (acc : Nat × Nat),
      (getIdScan ns al ti i acc).2 = acc.2 ∨
      (i ≤ (getIdScan ns al ti i acc).2 ∧
        (getIdScan ns al ti i acc).2 < i + ti.length) := by
  intro ti
  induction ti with
  | nil => exact fun i acc => Or.inl rfl
  | cons t rest ih =>
    intro i acc
    by_cases h : t.objectSize = ns ∧ al ≤ t.objectAlignment ∧
        t.objectAlignment < acc.1
    · have hstep : getIdScan ns al (t :: rest) i acc =
          getIdScan ns al rest (i + 1) (t.objectAlignment, i) := by
        simp [getIdScan, h]
      rw [hstep]
      rcases ih (i + 1) (t.objectAlignment, i) with h1 | h1
      · right
        rw [h1]
        simp
      · right
        refine ⟨by omega, ?_⟩
        have := h1.2
        simp only [List.length_cons]
        omega
    · have hstep : getIdScan ns al (t :: rest) i acc =
          getIdScan ns al rest (i + 1) acc := by
        simp [getIdScan, h]
      rw [hstep]
      rcases ih (i + 1) acc with h1 | h1
      · exact Or.inl h1
      · right
        refine ⟨by omega, ?_⟩
        have := h1.2
        simp only [List.length_cons]
        omega

/-- `getId` preserves the driver invariant, and the ID it returns indexes an
existing entry of the (possibly extended) vectors. -/
theorem getId_inv (s : Driver) (sz al : Nat) (hinv : Inv s) :
    Inv (getId s sz al).2 ∧
      (getId s sz al).1 < (getId s sz al).2.configs.length := by
  by_cases hfound :
      (getIdScan (normalizedSize sz) al s.typeInfos 0 (UMAX, UMAX)).2 ≠ UMAX
  · have hg : getId s sz al =
        ((getIdScan (normalizedSize sz) al s.typeInfos 0 (UMAX, UMAX)).2, s) := by
      simp [getId, hfound]
    rw [hg]
    refine ⟨hinv, ?_⟩
    show _ < s.configs.length
    rcases getIdScan_snd_range (normalizedSize sz) al s.typeInfos 0
        (UMAX, UMAX) with h | h
    · exact absurd h hfound
    · have h2 := h.2
      have hl := hinv.1
      omega
  · have hg : getId s sz al =
        (s.typeInfos.length,
          { s with
            typeInfos := s.typeInfos ++ [⟨normalizedSize sz, al⟩],
            configs := s.configs ++ [⟨[], [], 0, 0⟩] }) := by
      simp only [getId]
      rw [if_neg hfound]
    rw [hg]
    have hl := hinv.1
    refine ⟨⟨by simp [hl], ?_⟩, by simp; omega⟩
    intro i t c htc hcc
    rcases lt_trichotomy i s.typeInfos.length with hi | hi | hi
    · rw [List.getElem?_append, if_pos hi] at htc
      rw [List.getElem?_append, if_pos (by omega)] at hcc
      exact hinv.2 i t c htc hcc
    · subst hi
      rw [List.getElem?_concat_length] at htc
      rw [hl, List.getElem?_concat_length] at hcc
      cases htc
      cases hcc
      refine ⟨normalizedSize_pos sz, by simp⟩
    · rw [List.getElem?_eq_none (by simp; omega)] at htc
      cases htc

/-- Claim C10: every driver operation preserves the invariant that the
`typeInfos` and `configs` vectors have equal length; every ID returned by
`getId` indexes an existing entry; and `allocate`, `deallocate` and `reserve`
succeed (index an existing type info and pool configuration) on every ID below
the common length. -/
theorem c10_driver_operations_inv (abs sz al n ptr Id : Nat) (s : Driver)
    (hinv : Inv s) (hid : Id < s.configs.length) :
    (Inv (getId s sz al).2 ∧
      (getId s sz al).1 < (getId s sz al).2.configs.length ∧
      (getId s sz al).2.typeInfos.length = (getId s sz al).2.configs.length) ∧
    (∃ p s', allocate abs s Id = some (p, s') ∧ Inv s') ∧
    (∃ s', deallocate s ptr Id = some s' ∧ Inv s') ∧
    (∃ s', reserve s Id n = some s' ∧ Inv s') ∧
    Inv (destroyDriver s) := by
  obtain ⟨c, hc⟩ : ∃ c, s.configs[Id]? = some c :=
    ⟨s.configs[Id], List.getElem?_eq_some.mpr ⟨hid, rfl⟩⟩
  have hidt : Id < s.typeInfos.length := by rw [hinv.1]; exact hid
  obtain ⟨t, ht⟩ : ∃ t, s.typeInfos[Id]? = some t :=
    ⟨s.typeInfos[Id], List.getElem?_eq_some.mpr ⟨hidt, rfl⟩⟩
  obtain ⟨hos, hroot⟩ := hinv.2 Id t c ht hc
  refine ⟨⟨(getId_inv s sz al hinv).1, (getId_inv s sz al hinv).2,
    (getId_inv s sz al hinv).1.1⟩, ?_, ?_, ?_, ?_⟩
  · -- allocate succeeds and preserves the invariant
    rcases hfl : c.freeList with _ | ⟨x, rest⟩
    · by_cases hbump : c.last < c.pos + t.objectSize
      · refine ⟨_, _, allocate_newBlock hc ht hfl hbump, ?_⟩
        exact Inv_setCfg hinv hid (by simp)
      · have hle : c.pos + t.objectSize ≤ c.last := by omega
        have hpl : c.pos < c.last := by omega
        rcases hr : c.root with _ | ⟨b, bs⟩
        · exact absurd hr (hroot hpl)
        refine ⟨_, _, allocate_bump hc ht hfl hle hr, ?_⟩
        exact Inv_setCfg hinv hid (fun _ => by simp [hr])
    · refine ⟨_, _, allocate_freeList_cons hc hfl, ?_⟩
      exact Inv_setCfg hinv hid hroot
  · refine ⟨_, deallocate_eq hc ptr, ?_⟩
    exact Inv_setCfg hinv hid hroot
  · rcases Nat.eq_zero_or_pos n with hn | hn
    · subst hn
      exact ⟨s, by simp [reserve], hinv⟩
    · have hn0 : n ≠ 0 := by omega
      obtain ⟨s', hres, hti, hlen, hother, c', hc', hroot', _⟩ :=
        reserve_spec ht hc hos hroot hn0
      refine ⟨s', hres, ?_, ?_⟩
      · rw [hti, hinv.1, hlen]
      · intro i ti' ci' hti' hci'
        rw [hti] at hti'
        by_cases hi : i = Id
        · subst hi
          rw [hc'] at hci'
          cases hci'
          have hteq : t = ti' := Option.some.inj (ht.symm.trans hti')
          subst hteq
          exact ⟨hos, hroot'⟩
        · rw [hother i hi] at hci'
          exact hinv.2 i ti' ci' hti' hci'
  · exact ⟨rfl, fun i t c htc _ => by simp [destroyDriver] at htc⟩

/-! Alignment invariant and claim C5. -/

/-- Well-formedness of a type-info entry, as guaranteed by the C++ type system
for an entry created from a real type `T`: the alignment is positive,
`alignof(T)` divides the normalized size (`sizeof(T)` is a multiple of
`alignof(T)` and alignments are powers of two), and the alignment is a power
of two, which relative to the 8-byte slab header means it divides 8 or is
divisible by 8. -/
def tiOK (t : TypeInfo) : Prop :=
  0 < t.objectAlignment ∧ t.objectAlignment ∣ t.objectSize ∧
  (t.objectAlignment ∣ headerSize ∨ headerSize ∣ t.objectAlignment)

/-- Alignment state of one pool: every cell on the free list is aligned, and
the next bump-allocation address in the current slab is aligned. -/
def cellOK (t : TypeInfo) (c : Config) : Prop :=
  (∀ a ∈ c.freeList, t.objectAlignment ∣ a) ∧
  (∀ b bs, c.root = b :: bs → t.objectAlignment ∣ (b + headerSize + c.pos))

/-- Alignment invariant of a driver: every classified pool has a well-formed
type info and aligned cells. It holds in every state reachable through
`getId` / `allocate` / `deallocate` / `reserve` when deallocated pointers were
obtained from `allocate` with the same ID. -/
def AlignInv (s : Driver) : Prop :=
  ∀ (i : Nat) (t : TypeInfo) (c : Config),
    s.typeInfos[i]? = some t → s.configs[i]? = some c → tiOK t ∧ cellOK t c

theorem alignUp_dvd (b : Nat) {a : Nat} (ha : 0 < a) : a ∣ alignUp b a := by
  rw [alignUp, if_neg (by omega)]
  exact dvd_mul_left a _

theorem dvd_offset {t : TypeInfo} (h : tiOK t) :
    t.objectAlignment ∣ max headerSize t.objectAlignment := by
  rcases h.2.2 with h8 | h8
  · have : t.objectAlignment ≤ headerSize := Nat.le_of_dvd (by norm_num [headerSize]) h8
    rw [max_eq_left this]
    exact h8
  · have : headerSize ≤ t.objectAlignment := Nat.le_of_dvd h.1 h8
    rw [max_eq_right this]

/-- The first cell of a freshly created slab is aligned. -/
theorem blockCreate_cell_aligned {t : TypeInfo} (h : tiOK t) (brk n : Nat) :
    t.objectAlignment ∣
      ((blockCreate brk t.objectSize t.objectAlignment n).1 + headerSize +
        (blockCreate brk t.objectSize t.objectAlignment n).2.1) := by
  have hoff : headerSize ≤ max headerSize t.objectAlignment := le_max_left _ _
  have heq : (blockCreate brk t.objectSize t.objectAlignment n).1 + headerSize +
      (blockCreate brk t.objectSize t.objectAlignment n).2.1 =
      alignUp brk t.objectAlignment + max headerSize t.objectAlignment := by
    simp only [blockCreate]
    omega
  rw [heq]
  exact Nat.dvd_add (alignUp_dvd brk h.1) (dvd_offset h)

/-- `allocate` hits a null slab dereference (undefined behavior in the C++
code) only when the bump range is non-empty but no slab exists; this never
happens in reachable states. -/
theorem allocate_noRoot {abs : Nat} {s : Driver} {Id : Nat} {t : TypeInfo}
    {c : Config} (hc : s.configs[Id]? = some c)
    (ht : s.typeInfos[Id]? = some t) (hfl : c.freeList = [])
    (hle : c.pos + t.objectSize ≤ c.last) (hr : c.root = []) :
    allocate abs s Id = none := by
  have hnot : ¬ c.last < c.pos + t.objectSize := by omega
  simp [allocate, hc, ht, hfl, hr, hnot]

/-- Claim C5: every pointer returned by `allocate(Id)` is a multiple of the
alignment recorded in the driver type-info entry for `Id` - whether it is the
first cell of a new slab, a bump-allocated cell, or a recycled free-list cell -
and the alignment invariant is maintained. -/
theorem c5_allocate_aligned (abs Id : Nat) (s : Driver) (p : Nat)
    (s' : Driver) (t : TypeInfo)
    (hai : AlignInv s) (ht : s.typeInfos[Id]? = some t)
    (h : allocate abs s Id = some (p, s')) :
    t.objectAlignment ∣ p ∧ AlignInv s' := by
  have hlen : Id < s.configs.length := by
    rcases hc : s.configs[Id]? with _ | c
    · rw [allocate, hc] at h
      cases h
    · exact (List.getElem?_eq_some.mp hc).1
  obtain ⟨c, hc⟩ : ∃ c, s.configs[Id]? = some c :=
    ⟨s.configs[Id], List.getElem?_eq_some.mpr ⟨hlen, rfl⟩⟩
  obtain ⟨hti, hcell⟩ := hai Id t c ht hc
  have hdos : t.objectAlignment ∣ t.objectSize := hti.2.1
  rcases hfl : c.freeList with _ | ⟨x, rest⟩
  · by_cases hbump : c.last < c.pos + t.objectSize
    · rw [allocate_newBlock hc ht hfl hbump, Option.some.injEq,
        Prod.mk.injEq] at h
      obtain ⟨hp, hs⟩ := h
      subst hp hs
      refine ⟨blockCreate_cell_aligned hti s.brk abs, ?_⟩
      intro i t' c' ht' hc'
      simp only [Driver.setCfg] at ht' hc'
      by_cases hi : i = Id
      · subst hi
        rw [List.getElem?_set_eq_of_lt _ hlen] at hc'
        cases hc'
        have hteq : t = t' := Option.some.inj (ht.symm.trans ht')
        subst hteq
        refine ⟨hti, by simp, ?_⟩
        intro b bs hb
        simp only [List.cons.injEq] at hb
        obtain ⟨hb1, _⟩ := hb
        subst hb1
        have hfirst := blockCreate_cell_aligned hti s.brk abs
        have heq : (blockCreate s.brk t.objectSize t.objectAlignment abs).1 +
            headerSize +
            ((blockCreate s.brk t.objectSize t.objectAlignment abs).2.1 +
              t.objectSize) =
            ((blockCreate s.brk t.objectSize t.objectAlignment abs).1 +
              headerSize +
              (blockCreate s.brk t.objectSize t.objectAlignment abs).2.1) +
            t.objectSize := by omega
        rw [heq]
        exact Nat.dvd_add hfirst hdos
      · rw [List.getElem?_set_ne fun he => hi he.symm] at hc'
        exact hai i t' c' ht' hc'
    · have hle : c.pos + t.objectSize ≤ c.last := by omega
      rcases hr : c.root with _ | ⟨b, bs⟩
      · rw [allocate_noRoot hc ht hfl hle hr] at h
        cases h
      rw [allocate_bump hc ht hfl hle hr, Option.some.injEq,
        Prod.mk.injEq] at h
      obtain ⟨hp, hs⟩ := h
      subst hp hs
      refine ⟨hcell.2 b bs hr, ?_⟩
      intro i t' c' ht' hc'
      simp only [Driver.setCfg] at ht' hc'
      by_cases hi : i = Id
      · subst hi
        rw [List.getElem?_set_eq_of_lt _ hlen] at hc'
        cases hc'
        have hteq : t = t' := Option.some.inj (ht.symm.trans ht')
        subst hteq
        refine ⟨hti, fun a ha => hcell.1 a ha, ?_⟩
        intro b2 bs2 hb
        simp only at hb
        have hdb : t.objectAlignment ∣ (b2 + headerSize + c.pos) :=
          hcell.2 b2 bs2 hb
        have heq : b2 + headerSize + (c.pos + t.objectSize) =
            (b2 + headerSize + c.pos) + t.objectSize := by omega
        rw [heq]
        exact Nat.dvd_add hdb hdos
      · rw [List.getElem?_set_ne fun he => hi he.symm] at hc'
        exact hai i t' c' ht' hc'
  · rw [allocate_freeList_cons hc hfl, Option.some.injEq, Prod.mk.injEq] at h
    obtain ⟨hp, hs⟩ := h
    subst hp hs
    refine ⟨hcell.1 x (by simp [hfl]), ?_⟩
    intro i t' c' ht' hc'
    simp only [Driver.setCfg] at ht' hc'
    by_cases hi : i = Id
    · subst hi
      rw [List.getElem?_set_eq_of_lt _ hlen] at hc'
      cases hc'
      have hteq : t = t' := Option.some.inj (ht.symm.trans ht')
      subst hteq
      exact ⟨hti, fun a ha => hcell.1 a
        (by rw [hfl]; exact List.mem_cons_of_mem x ha), hcell.2⟩
    · rw [List.getElem?_set_ne fun he => hi he.symm] at hc'
      exact hai i t' c' ht' hc'

/-! Characterization of `getId` (claim C8). -/

/-- Index `i` of the type-info vector holds an entry that the `getId` scan for
normalized size `ns` and alignment `al` accepts. -/
def MatchesAt (ti : List TypeInfo) (ns al i : Nat) : Prop :=
  ∃ t, ti[i]? = some t ∧ t.objectSize = ns ∧ al ≤ t.objectAlignment

/-- Full characterization of the scan loop, by induction over the remaining
entries: the result is the accumulator or a strictly better matching entry
(part 1); it is a lower bound on every matching alignment (part 2) and on the
accumulator (part 3); and among matching entries of equal alignment the
earliest index wins (part 4). -/
theorem getIdScan_spec (ns al : Nat) :
    ∀ (ti : List TypeInfo) (i A J : Nat),
      (getIdScan ns al ti i (A, J) = (A, J) ∨
        ((getIdScan ns al ti i (A, J)).1 < A ∧
          ∃ (k : Nat) (t : TypeInfo), ti[k]? = some t ∧ t.objectSize = ns ∧
            al ≤ t.objectAlignment ∧
            getIdScan ns al ti i (A, J) = (t.objectAlignment, i + k))) ∧
      (∀ (k : Nat) (t : TypeInfo), ti[k]? = some t → t.objectSize = ns →
        al ≤ t.objectAlignment →
        (getIdScan ns al ti i (A, J)).1 ≤ t.objectAlignment) ∧
      (getIdScan ns al ti i (A, J)).1 ≤ A ∧
      (∀ (k : Nat) (t : TypeInfo), ti[k]? = some t → t.objectSize = ns →
        al ≤ t.objectAlignment →
        t.objectAlignment = (getIdScan ns al ti i (A, J)).1 →
        getIdScan ns al ti i (A, J) = (A, J) ∨
          (getIdScan ns al ti i (A, J)).2 ≤ i + k) := by
  intro ti
  induction ti with
  | nil =>
    intro i A J
    refine ⟨Or.inl rfl, ?_, le_refl _, ?_⟩
    · intro k t hk
      simp at hk
    · intro k t hk
      simp at hk
  | cons t0 rest ih =>
    intro i A J
    have hstep : getIdScan ns al (t0 :: rest) i (A, J) =
        if t0.objectSize = ns ∧ al ≤ t0.objectAlignment ∧
            t0.objectAlignment < A
        then getIdScan ns al rest (i + 1) (t0.objectAlignment, i)
        else getIdScan ns al rest (i + 1) (A, J) := rfl
    by_cases htake : t0.objectSize = ns ∧ al ≤ t0.objectAlignment ∧
        t0.objectAlignment < A
    · rw [hstep, if_pos htake]
      obtain ⟨ih1, ih2, ih3, ih4⟩ := ih (i + 1) t0.objectAlignment i
      refine ⟨?_, ?_, ?_, ?_⟩
      · rcases ih1 with h | ⟨hlt, k, t, hk, hsz, hal2, heq⟩
        · right
          rw [h]
          refine ⟨htake.2.2, 0, t0, by simp, htake.1, htake.2.1, by simp⟩
        · right
          refine ⟨lt_trans hlt htake.2.2, k + 1, t, by simpa using hk, hsz,
            hal2, ?_⟩
          rw [heq]
          congr 1
          omega
      · intro k t hk hsz hal2
        cases k with
        | zero =>
          have ht0 : t = t0 := by simpa using hk.symm
          rw [ht0]
          exact ih3
        | succ k => exact ih2 k t (by simpa using hk) hsz hal2
      · exact le_trans ih3 (le_of_lt htake.2.2)
      · intro k t hk hsz hal2 hoa
        cases k with
        | zero =>
          have ht0 : t = t0 := by simpa using hk.symm
          rw [ht0] at hoa
          rcases ih1 with h | ⟨hlt, _⟩
          · right
            rw [h]
            simp
          · omega
        | succ k =>
          rcases ih4 k t (by simpa using hk) hsz hal2 hoa with h | h
          · right
            rw [h]
            simp
          · right
            omega
    · rw [hstep, if_neg htake]
      obtain ⟨ih1, ih2, ih3, ih4⟩ := ih (i + 1) A J
      refine ⟨?_, ?_, ?_, ?_⟩
      · rcases ih1 with h | ⟨hlt, k, t, hk, hsz, hal2, heq⟩
        · exact Or.inl h
        · right
          refine ⟨hlt, k + 1, t, by simpa using hk, hsz, hal2, ?_⟩
          rw [heq]
          congr 1
          omega
      · intro k t hk hsz hal2
        cases k with
        | zero =>
          have ht0 : t = t0 := by simpa using hk.symm
          rw [ht0] at hsz hal2
          rw [ht0]
          have hge : ¬ t0.objectAlignment < A := fun hlt =>
            htake ⟨hsz, hal2, hlt⟩
          omega
        | succ k => exact ih2 k t (by simpa using hk) hsz hal2
      · exact ih3
      · intro k t hk hsz hal2 hoa
        cases k with
        | zero =>
          have ht0 : t = t0 := by simpa using hk.symm
          rw [ht0] at hsz hal2 hoa
          have hge : ¬ t0.objectAlignment < A := fun hlt =>
            htake ⟨hsz, hal2, hlt⟩
          rcases ih1 with h | ⟨hlt, _⟩
          · exact Or.inl h
          · omega
        | succ k =>
          rcases ih4 k t (by simpa using hk) hsz hal2 hoa with h | h
          · exact Or.inl h
          · right
            omega

/-- Behavior of a single `getId` call: when some existing entry matches, the
state is unchanged and the returned ID is the first index among the matching
entries of smallest alignment; when none matches, a fresh entry and a zeroed
pool are appended and the fresh index is returned. -/
theorem getId_spec (s : Driver) (sz al : Nat)
    (hbound : ∀ t ∈ s.typeInfos, t.objectAlignment < UMAX)
    (hlen : s.typeInfos.length ≤ UMAX) :
    ((∃ i, MatchesAt s.typeInfos (normalizedSize sz) al i) →
      (getId s sz al).2 = s ∧
      ∃ tbest, s.typeInfos[(getId s sz al).1]? = some tbest ∧
        tbest.objectSize = normalizedSize sz ∧ al ≤ tbest.objectAlignment ∧
        ∀ (j : Nat) (tj : TypeInfo), s.typeInfos[j]? = some tj →
          tj.objectSize = normalizedSize sz → al ≤ tj.objectAlignment →
          tbest.objectAlignment ≤ tj.objectAlignment ∧
          (tj.objectAlignment = tbest.objectAlignment →
            (getId s sz al).1 ≤ j)) ∧
    ((¬ ∃ i, MatchesAt s.typeInfos (normalizedSize sz) al i) →
      (getId s sz al).1 = s.typeInfos.length ∧
      (getId s sz al).2.typeInfos =
        s.typeInfos ++ [⟨normalizedSize sz, al⟩] ∧
      (getId s sz al).2.configs = s.configs ++ [⟨[], [], 0, 0⟩]) := by
  obtain ⟨sp1, sp2, sp3, sp4⟩ :=
    getIdScan_spec (normalizedSize sz) al s.typeInfos 0 UMAX UMAX
  constructor
  · rintro ⟨i0, t0, h0, hsz0, hal0⟩
    have ht0mem : t0 ∈ s.typeInfos := List.getElem?_mem h0
    have hb0 : t0.objectAlignment < UMAX := hbound t0 ht0mem
    have hlt : (getIdScan (normalizedSize sz) al s.typeInfos 0
        (UMAX, UMAX)).1 < UMAX :=
      lt_of_le_of_lt (sp2 i0 t0 h0 hsz0 hal0) hb0
    rcases sp1 with h | ⟨_, k, t, hk, hsz, hal2, heq⟩
    · rw [h] at hlt
      exact absurd hlt (lt_irrefl _)
    have hkne : k ≠ UMAX := by
      have : k < s.typeInfos.length := (List.getElem?_eq_some.mp hk).1
      omega
    have hsnd : (getIdScan (normalizedSize sz) al s.typeInfos 0
        (UMAX, UMAX)).2 = k := by
      rw [heq]
      simp
    have hfound : (getIdScan (normalizedSize sz) al s.typeInfos 0
        (UMAX, UMAX)).2 ≠ UMAX := by
      rw [hsnd]
      exact hkne
    have hg : getId s sz al = ((getIdScan (normalizedSize sz) al s.typeInfos 0
        (UMAX, UMAX)).2, s) := by
      simp only [getId]
      rw [if_pos hfound]
    rw [hg]
    refine ⟨rfl, t, by simpa [hsnd] using hk, hsz, hal2, ?_⟩
    intro j tj hj hjsz hjal
    have hfst : (getIdScan (normalizedSize sz) al s.typeInfos 0
        (UMAX, UMAX)).1 = t.objectAlignment := by
      rw [heq]
    constructor
    · have := sp2 j tj hj hjsz hjal
      omega
    · intro hjeq
      rcases sp4 j tj hj hjsz hjal (by omega) with h | h
      · rw [h] at hfound
        simp at hfound
      · simpa [hsnd] using h
  · intro hnone
    have hacc : getIdScan (normalizedSize sz) al s.typeInfos 0
        (UMAX, UMAX) = (UMAX, UMAX) := by
      rcases sp1 with h | ⟨_, k, t, hk, hsz, hal2, _⟩
      · exact h
      · exact absurd ⟨k, t, hk, hsz, hal2⟩ hnone
    have hnf : ¬ (getIdScan (normalizedSize sz) al s.typeInfos 0
        (UMAX, UMAX)).2 ≠ UMAX := by
      rw [hacc]
      simp
    have hg : getId s sz al = (s.typeInfos.length,
        { s with
          typeInfos := s.typeInfos ++ [⟨normalizedSize sz, al⟩],
          configs := s.configs ++ [⟨[], [], 0, 0⟩] }) := by
      simp only [getId]
      rw [if_neg hnf]
    rw [hg]
    exact ⟨rfl, rfl, rfl⟩

/-- Claim C8: on one driver, two types with equal normalized size and equal
alignment resolve to the same ID (the second of two consecutive calls returns
the first call's ID); and in general `getId` returns, among existing entries
whose size equals the query's normalized size and whose alignment is at least
the query's, the first index of smallest alignment, appending a fresh entry
(and returning the fresh index) only when no such entry exists. -/
theorem c8_getId_footprint_sharing (s : Driver) (sa aa sb ab : Nat)
    (hbound : ∀ t ∈ s.typeInfos, t.objectAlignment < UMAX)
    (hlen : s.typeInfos.length + 1 ≤ UMAX) (haa : aa < UMAX)
    (hns : normalizedSize sa = normalizedSize sb) (hal : aa = ab) :
    (getId (getId s sa aa).2 sb ab).1 = (getId s sa aa).1 ∧
    ((∃ i, MatchesAt s.typeInfos (normalizedSize sa) aa i) →
      (getId s sa aa).2 = s ∧
      ∃ tbest, s.typeInfos[(getId s sa aa).1]? = some tbest ∧
        tbest.objectSize = normalizedSize sa ∧ aa ≤ tbest.objectAlignment ∧
        ∀ (j : Nat) (tj : TypeInfo), s.typeInfos[j]? = some tj →
          tj.objectSize = normalizedSize sa → aa ≤ tj.objectAlignment →
          tbest.objectAlignment ≤ tj.objectAlignment ∧
          (tj.objectAlignment = tbest.objectAlignment →
            (getId s sa aa).1 ≤ j)) ∧
    ((¬ ∃ i, MatchesAt s.typeInfos (normalizedSize sa) aa i) →
      (getId s sa aa).1 = s.typeInfos.length ∧
      (getId s sa aa).2.typeInfos =
        s.typeInfos ++ [⟨normalizedSize sa, aa⟩] ∧
      (getId s sa aa).2.configs = s.configs ++ [⟨[], [], 0, 0⟩]) := by
  subst hal
  obtain ⟨hfound, hnfound⟩ := getId_spec s sa aa hbound (by omega)
  refine ⟨?_, hfound, hnfound⟩
  by_cases hm : ∃ i, MatchesAt s.typeInfos (normalizedSize sa) aa i
  · obtain ⟨hstate, tbest, htb, htbsz, htbal, hbest⟩ := hfound hm
    rw [hstate]
    obtain ⟨hfound2, _⟩ := getId_spec s sb aa hbound (by omega)
    have hm2 : ∃ i, MatchesAt s.typeInfos (normalizedSize sb) aa i := by
      rw [← hns]
      exact hm
    obtain ⟨_, tbest2, htb2, htbsz2, htbal2, hbest2⟩ := hfound2 hm2
    have h12 := hbest (getId s sb aa).1 tbest2 htb2 (hns ▸ htbsz2) htbal2
    have h21 := hbest2 (getId s sa aa).1 tbest htb (hns ▸ htbsz) htbal
    have heq : tbest.objectAlignment = tbest2.objectAlignment := by omega
    have hle1 := h12.2 heq.symm
    have hle2 := h21.2 heq
    omega
  · obtain ⟨hid1, hti1, _⟩ := hnfound hm
    have hbound2 : ∀ t ∈ (getId s sa aa).2.typeInfos,
        t.objectAlignment < UMAX := by
      rw [hti1]
      intro t htmem
      rcases List.mem_append.mp htmem with h | h
      · exact hbound t h
      · simp at h
        rw [h]
        exact haa
    have hlen2 : (getId s sa aa).2.typeInfos.length ≤ UMAX := by
      rw [hti1]
      simp
      omega
    obtain ⟨hfound2, _⟩ := getId_spec (getId s sa aa).2 sb aa hbound2 hlen2
    have hm2 : ∃ i, MatchesAt (getId s sa aa).2.typeInfos
        (normalizedSize sb) aa i := by
      refine ⟨s.typeInfos.length, ⟨normalizedSize sa, aa⟩, ?_, by
        simpa using hns, le_refl aa⟩
      rw [hti1]
      exact List.getElem?_concat_length _ _
    obtain ⟨_, tbest2, htb2, htbsz2, htbal2, _⟩ := hfound2 hm2
    rw [hti1] at htb2
    have hidlt : (getId (getId s sa aa).2 sb aa).1 <
        s.typeInfos.length + 1 := by
      have := (List.getElem?_eq_some.mp htb2).1
      simpa using this
    rcases lt_or_ge (getId (getId s sa aa).2 sb aa).1 s.typeInfos.length
        with hlt | hge
    · exfalso
      rw [List.getElem?_append, if_pos hlt] at htb2
      exact hm ⟨(getId (getId s sa aa).2 sb aa).1, tbest2, htb2,
        hns ▸ htbsz2, htbal2⟩
    · have : (getId (getId s sa aa).2 sb aa).1 = s.typeInfos.length := by
        omega
      rw [this, hid1]

/-! Evaluation of the refc handle operations (claims C1, C2, C3, C9) and of
the factory capacity constructor (claim C7). -/

/-- Claim C2, evaluated (code bug): the translated `operator bool` returns
`false` for the null handle and for both sentinel handles, but also `false`
for a live handle (cell address 4096 here) - the pointer arithmetic
`Data + 2` scales by `sizeof(counter) = 24`, so `size_t(Data + 2) < 3`
compares `Data + 48` with `3`. The claim (and the operator's own
documentation) requires `true` for a live handle. -/
theorem c2_operator_bool_eval :
    refc.operatorBool refc.nullData = false ∧
    refc.operatorBool refc.emptyKeyData = false ∧
    refc.operatorBool refc.tombstoneKeyData = false ∧
    refc.operatorBool 4096 = false := by
  refine ⟨by decide, by decide, by decide, by decide⟩

/-- Claim C9, evaluated (code bug): the translated `operator==(nullptr_t)`
returns `Data` converted to `bool`, so it yields `false` for the null handle
and `true` for a live handle and for the empty-key sentinel - exactly the
opposite of the claim, which requires `true` precisely in the null state. -/
theorem c9_eq_nullptr_eval :
    refc.eqNullptr refc.nullData = false ∧
    refc.eqNullptr 4096 = true ∧
    refc.eqNullptr refc.emptyKeyData = true := by
  refine ⟨by decide, by decide, by decide⟩

/-- Claim C3, evaluated (code bug): dropping a live handle does nothing at
all. The destructor's guard `if (!*this) return;` uses the broken
`operator bool`, which is `false` for a live cell address such as 4096, so the
drop returns immediately: with counter 2 the counter is not decremented, and
with counter 1 (last handle) neither the payload destructor nor
`driver.deallocate` runs. Dropping a null handle does nothing, as claimed. -/
theorem c3_drop_eval :
    refc.drop 4096 ⟨2, true, 0, 0⟩ = ⟨2, true, 0, 0⟩ ∧
    refc.drop 4096 ⟨1, true, 0, 0⟩ = ⟨1, true, 0, 0⟩ ∧
    refc.drop refc.nullData ⟨1, true, 0, 0⟩ = ⟨1, true, 0, 0⟩ ∧
    refc.drop refc.emptyKeyData ⟨1, true, 0, 0⟩ = ⟨1, true, 0, 0⟩ := by
  refine ⟨by decide, by decide, by decide, by decide⟩

/-- Claim C1, evaluated (code bug): for the shortest possible lifecycle - the
factory creates one handle (counter 1, driver attached) and that only handle
is dropped - the payload destructor runs zero times and the cell is never
returned via `deallocate`, because the destructor's broken `operator bool`
guard makes the drop a no-op. The claim requires exactly one destructor run
and exactly one `deallocate`. A copy followed by two drops also changes
nothing but the counter increment. -/
theorem c1_lifecycle_eval :
    (refc.drop 4096 refc.factoryCell).dtorRuns = 0 ∧
    (refc.drop 4096 refc.factoryCell).deallocCalls = 0 ∧
    refc.drop 4096 refc.factoryCell = refc.factoryCell ∧
    (refc.drop 4096 (refc.drop 4096 (refc.copy 4096 refc.factoryCell))).dtorRuns
      = 0 ∧
    (refc.drop 4096 (refc.drop 4096 (refc.copy 4096 refc.factoryCell))).ctr
      = 2 := by
  refine ⟨by decide, by decide, by decide, by decide, by decide⟩

/-- Claim C7, evaluated (code bug): the aggregation loop itself is as claimed -
with two types sharing resolved ID 0 and capacities 3 and 4, `initCapById`
becomes `[7, 0]` - but the final loop then performs `Driver.reserve(7)`: the
aggregated capacity is passed as the only argument, standing in the `Id`
parameter position, and no ID accompanies it; the claim requires the call
`driver.reserve(0, 7)`. -/
theorem c7_capacity_ctor_eval :
    aggregateCapsById [0, 0] [3, 4] = [7, 0] ∧
    factoryReserveArgs (aggregateCapsById [0, 0] [3, 4]) 1 = [7] := by
  refine ⟨by decide, by decide⟩

/-! Concrete sample states and witnesses. -/

/-- Driver state after `getId` classified one 8-byte, 8-aligned type on a
fresh driver: one type info, one zeroed pool. -/
def sampleS : Driver := ⟨[⟨8, 8⟩], [⟨[], [], 0, 0⟩], 0, 0⟩

/-- `sampleS` is the state the driver actually reaches. -/
theorem sampleS_reached : (getId Driver.empty 8 8).2 = sampleS := by decide

/-- `sampleS` after two allocations with block size 1024: one slab at base 0,
cells 8 and 16 handed out. -/
def sampleS1 : Driver := ⟨[⟨8, 8⟩], [⟨[0], [], 16, 8192⟩], 8200, 1⟩

theorem sampleS_inv : Inv sampleS := by
  refine ⟨rfl, ?_⟩
  intro i t c htc hcc
  rcases i with _ | i
  · simp [sampleS] at htc hcc
    subst htc
    subst hcc
    exact ⟨by norm_num, fun h => absurd h (by norm_num)⟩
  · simp [sampleS] at htc

theorem sampleS_alignInv : AlignInv sampleS := by
  intro i t c htc hcc
  rcases i with _ | i
  · simp [sampleS] at htc hcc
    subst htc
    subst hcc
    refine ⟨⟨by norm_num, by norm_num, Or.inl (by norm_num [headerSize])⟩,
      by simp, ?_⟩
    intro b bs h
    simp at h
  · simp [sampleS] at htc

/-- Witness for claim C4 at a concrete input: allocate two cells from
`sampleS`, deallocate them in swapped order, and the theorem yields the two
addresses back in LIFO order with no system-allocator call. -/
theorem c4_witness :
    1 ≤ 2 ∧ 0 < sampleS.configs.length ∧
    allocateK 1024 sampleS 0 2 = some ([8, 16], sampleS1) ∧
    ([16, 8] : List Nat).Perm [8, 16] ∧
    (∃ s2 s3, deallocList sampleS1 [16, 8] 0 = some s2 ∧
      allocateK 1024 s2 0 2 = some (([16, 8] : List Nat).reverse, s3) ∧
      s3.numSys = s2.numSys ∧
      (([16, 8] : List Nat).reverse).Perm [8, 16]) :=
  ⟨by decide, by decide, by decide, by decide,
    c4_alloc_dealloc_round_trip 1024 2 0 sampleS [8, 16] [16, 8] sampleS1
      (by decide) (by decide) (by decide) (by decide)⟩

/-- Witness for claim C5 at a concrete input: the first allocation from
`sampleS` returns address 8, a multiple of the recorded alignment 8. -/
theorem c5_witness :
    AlignInv sampleS ∧
    sampleS.typeInfos[0]? = some ⟨8, 8⟩ ∧
    allocate 1024 sampleS 0 =
      some (8, (⟨[⟨8, 8⟩], [⟨[0], [], 8, 8192⟩], 8200, 1⟩ : Driver)) ∧
    ((⟨8, 8⟩ : TypeInfo).objectAlignment ∣ 8 ∧
      AlignInv (⟨[⟨8, 8⟩], [⟨[0], [], 8, 8192⟩], 8200, 1⟩ : Driver)) :=
  ⟨sampleS_alignInv, by decide, by decide,
    c5_allocate_aligned 1024 0 sampleS 8
      (⟨[⟨8, 8⟩], [⟨[0], [], 8, 8192⟩], 8200, 1⟩ : Driver) ⟨8, 8⟩
      sampleS_alignInv (by decide) (by decide)⟩

/-- Witness for claim C6 at a concrete input: after `reserve(0, 2)` on
`sampleS`, two allocations succeed without touching the system allocator. -/
theorem c6_witness :
    Inv sampleS ∧ 1 ≤ 2 ∧
    reserve sampleS 0 2 =
      some (⟨[⟨8, 8⟩], [⟨[0], [], 0, 16⟩], 24, 1⟩ : Driver) ∧
    (∃ addrs s'',
      allocateK 1024 (⟨[⟨8, 8⟩], [⟨[0], [], 0, 16⟩], 24, 1⟩ : Driver) 0 2 =
        some (addrs, s'') ∧
      s''.numSys = (⟨[⟨8, 8⟩], [⟨[0], [], 0, 16⟩], 24, 1⟩ : Driver).numSys) :=
  ⟨sampleS_inv, by decide, by decide,
    c6_reserve_covers_next_n 1024 0 2 sampleS
      (⟨[⟨8, 8⟩], [⟨[0], [], 0, 16⟩], 24, 1⟩ : Driver) sampleS_inv
      (by decide) (by decide)⟩

/-- Witness for claim C8 at a concrete input: on `sampleS` (which already
classified an 8-byte, 8-aligned type), a query for `sizeof = 8, alignof = 8`
followed by one for `sizeof = 2, alignof = 8` (same normalized size 8, same
alignment) returns the same ID. -/
theorem c8_witness :
    (∀ t ∈ sampleS.typeInfos, t.objectAlignment < UMAX) ∧
    sampleS.typeInfos.length + 1 ≤ UMAX ∧
    (8 : Nat) < UMAX ∧
    normalizedSize 8 = normalizedSize 2 ∧
    (8 : Nat) = 8 ∧
    ((getId (getId sampleS 8 8).2 2 8).1 = (getId sampleS 8 8).1 ∧
      ((∃ i, MatchesAt sampleS.typeInfos (normalizedSize 8) 8 i) →
        (getId sampleS 8 8).2 = sampleS ∧
        ∃ tbest, sampleS.typeInfos[(getId sampleS 8 8).1]? = some tbest ∧
          tbest.objectSize = normalizedSize 8 ∧
          8 ≤ tbest.objectAlignment ∧
          ∀ (j : Nat) (tj : TypeInfo), sampleS.typeInfos[j]? = some tj →
            tj.objectSize = normalizedSize 8 → 8 ≤ tj.objectAlignment →
            tbest.objectAlignment ≤ tj.objectAlignment ∧
            (tj.objectAlignment = tbest.objectAlignment →
              (getId sampleS 8 8).1 ≤ j)) ∧
      ((¬ ∃ i, MatchesAt sampleS.typeInfos (normalizedSize 8) 8 i) →
        (getId sampleS 8 8).1 = sampleS.typeInfos.length ∧
        (getId sampleS 8 8).2.typeInfos =
          sampleS.typeInfos ++ [⟨normalizedSize 8, 8⟩] ∧
        (getId sampleS 8 8).2.configs = sampleS.configs ++ [⟨[], [], 0, 0⟩])) :=
  ⟨by decide, by decide, by decide, by decide, rfl,
    c8_getId_footprint_sharing sampleS 8 8 2 8 (by decide) (by decide)
      (by decide) (by decide) rfl⟩

/-- Witness for claim C10 at a concrete input: on `sampleS` with ID 0, all
driver operations succeed and preserve the invariant. -/
theorem c10_witness :
    Inv sampleS ∧ 0 < sampleS.configs.length ∧
    ((Inv (getId sampleS 8 8).2 ∧
      (getId sampleS 8 8).1 < (getId sampleS 8 8).2.configs.length ∧
      (getId sampleS 8 8).2.typeInfos.length =
        (getId sampleS 8 8).2.configs.length) ∧
    (∃ p s', allocate 1024 sampleS 0 = some (p, s') ∧ Inv s') ∧
    (∃ s', deallocate sampleS 999 0 = some s' ∧ Inv s') ∧
    (∃ s', reserve sampleS 0 2 = some s' ∧ Inv s') ∧
    Inv (destroyDriver sampleS)) :=
  ⟨sampleS_inv, by decide,
    c10_driver_operations_inv 1024 8 8 2 999 0 sampleS sampleS_inv (by decide)⟩

end PoolAlloc
